import Mathlib

set_option maxRecDepth 8000

namespace Player

/- `Rat.add`, `Rat.mul`, `Rat.sub` and `Rat.inv` are `@[irreducible]` only
to steer the elaborator towards their `_def` lemmas; making them
semireducible locally lets `decide` evaluate concrete lyric timestamps. -/
attribute [local semireducible] Rat.add Rat.mul Rat.sub Rat.inv

/-! Shallow embedding of the two algorithmic components of
`src/static/js/player.js`: the synced-lyrics manager (`LyricsManager`:
`parseLRCLyrics`, `updateSyncedLyrics`, `adjustOffset`) and the search
retry/fallback logic (`PremiumMusicPlayer`: `search`, `performSearch`,
`handleSearchError`, `generateAlternativeQueries`).

Playback times and LRC timestamps are modelled as exact rationals (the
JS arithmetic `minutes * 60 + seconds` and `currentTime + lyricsOffset`
on the magnitudes involved is exact, and no claim depends on float
rounding).  JS strings are Lean strings; the inputs involved are ASCII,
so `Char.toLower` / `String.trim` model `toLowerCase` / `trim`.  DOM
rendering, notifications, network requests and backoff waits are
modelled as emitted events so that traces can be inspected. -/

/-- One synced lyric line, `{ time, text }` as pushed by `parseLRCLyrics`. -/
structure LyricLine where
  time : ℚ
  text : String
deriving DecidableEq

/-- The data fields of `LyricsManager` (its constructor sets
`lyrics = []`, `syncedLyrics = []`, `currentLine = -1`,
`isSynced = false`, `lyricsOffset = 0`). -/
structure LyricsState where
  lyrics : List String
  syncedLyrics : List LyricLine
  currentLine : Int
  isSynced : Bool
  lyricsOffset : ℚ
deriving DecidableEq

def initState : LyricsState :=
  { lyrics := [], syncedLyrics := [], currentLine := -1,
    isSynced := false, lyricsOffset := 0 }

/-- The whitespace characters relevant to the text handled here;
models the JS `trim` whitespace class on ASCII input. -/
def isSpaceChar (c : Char) : Bool := c == ' ' || c == '\t' || c == '\n' || c == '\r'

/-- `String.prototype.trim` on a character list. -/
def trimChars (l : List Char) : List Char :=
  ((l.dropWhile isSpaceChar).reverse.dropWhile isSpaceChar).reverse

/-- `text.split('\n')` on a character list. -/
def splitLines : List Char → List (List Char)
  | [] => [[]]
  | c :: rest =>
    match splitLines rest with
    | [] => [[]]
    | line :: more =>
      if c == '\n' then [] :: line :: more else (c :: line) :: more

/-- Base-10 value of a digit run, as computed by `parseInt` on it. -/
def digitsToNat (ds : List Char) : Nat :=
  ds.foldl (fun n c => 10 * n + (c.toNat - '0'.toNat)) 0

/-- Try to match the regex `\[(\d+):(\d+\.\d+)\]` at the head of the
character list.  Greedy `\d+` followed by a fixed delimiter is maximal
munch, so `takeWhile isDigit` is an exact model.  Returns the parsed
minutes, the `parseFloat` value of the seconds group
(`ss.ff = (ss * 10^k + ff) / 10^k` for `k` fraction digits, built with
`Rat.divInt`), and the characters after `]` (which the `(.*)` group
captures up to the end of line). -/
def tryTagAt : List Char → Option (Nat × ℚ × List Char)
  | '[' :: r1 =>
    let mins := r1.takeWhile Char.isDigit
    let r2 := r1.dropWhile Char.isDigit
    if mins.isEmpty then none
    else
      match r2 with
      | ':' :: r3 =>
        let secInt := r3.takeWhile Char.isDigit
        let r4 := r3.dropWhile Char.isDigit
        if secInt.isEmpty then none
        else
          match r4 with
          | '.' :: r5 =>
            let secFrac := r5.takeWhile Char.isDigit
            let r6 := r5.dropWhile Char.isDigit
            if secFrac.isEmpty then none
            else
              match r6 with
              | ']' :: rest =>
                some (digitsToNat mins,
                  Rat.divInt
                    ((digitsToNat secInt * 10 ^ secFrac.length + digitsToNat secFrac : Nat) : Int)
                    ((10 ^ secFrac.length : Nat) : Int),
                  rest)
              | _ => none
          | _ => none
      | _ => none
  | _ => none

/-- Leftmost match of the time-tag regex in a line:
`line.match(/\[(\d+):(\d+\.\d+)\](.*)/)` tries each start position from
the left. -/
def matchTimeTag : List Char → Option (Nat × ℚ × List Char)
  | [] => none
  | c :: rest =>
    match tryTagAt (c :: rest) with
    | some r => some r
    | none => matchTimeTag rest

/-- One iteration of the `parseLRCLyrics` loop body: a line contributes a
synced entry iff the regex matches and the trimmed trailing text is
non-empty (`if (text)`). -/
def parseLine (line : List Char) : Option LyricLine :=
  match matchTimeTag line with
  | none => none
  | some (minutes, seconds, rest) =>
    let text := trimChars rest
    if text.isEmpty then none
    else some { time := (minutes : ℚ) * 60 + seconds, text := String.mk text }

/-- Stable insertion used to model `Array.prototype.sort` (stable per the
ECMAScript spec) with comparator `(a, b) => a.time - b.time`: a new
element goes after every already-placed element with `time ≤` its own. -/
def insertByTime (x : LyricLine) : List LyricLine → List LyricLine
  | [] => [x]
  | y :: ys => if y.time ≤ x.time then y :: insertByTime x ys else x :: y :: ys

/-- Stable sort by `time` (insertion order kept among equal timestamps). -/
def sortByTime (l : List LyricLine) : List LyricLine :=
  l.foldl (fun acc x => insertByTime x acc) []

/-- Global replace `lrcText.replace(/\[\d+:\d+\.\d+\]/g, '')`: scan left
to right, delete each leftmost tag match and resume after it.  The fuel
argument (instantiated with the string length) only makes the recursion
structural; every step consumes at least one character, so a fuel equal
to the length is never exhausted. -/
def stripTimeTagsAux : Nat → List Char → List Char
  | 0, l => l
  | _ + 1, [] => []
  | fuel + 1, c :: rest =>
    match tryTagAt (c :: rest) with
    | some (_, _, tagRest) => stripTimeTagsAux fuel tagRest
    | none => c :: stripTimeTagsAux fuel rest

def stripTimeTags (s : String) : String :=
  String.mk (stripTimeTagsAux s.data.length s.data)

/-- `parseLRCLyrics(lrcText)`.  The method mutates `this.syncedLyrics`
and `this.isSynced` and returns a string, so it is modelled as
state-in/state-out.  `if (!lrcText) return 'Lyrics not available'`
fires on the empty string and touches no state. -/
def parseLRCLyrics (st : LyricsState) (lrcText : String) : LyricsState × String :=
  if lrcText = "" then (st, "Lyrics not available")
  else
    let entries := sortByTime ((splitLines lrcText.data).filterMap parseLine)
    let syncedNow : Bool := decide (0 < entries.length)
    let st1 := { st with syncedLyrics := entries, isSynced := syncedNow }
    if syncedNow then
      (st1, String.intercalate "\n" (entries.map (fun l => l.text)))
    else (st1, String.mk (trimChars (stripTimeTags lrcText).data))

/-- The descending scan of `updateSyncedLyrics`:
`for (i = len - 1; i >= 0; i--) if (adjusted >= lyrics[i].time) return i`
(first hit from the end, i.e. any hit among later indices wins), `-1`
when no timestamp has passed. -/
def findLineIndex (adjustedTime : ℚ) : List LyricLine → Int
  | [] => -1
  | line :: rest =>
    let r := findLineIndex adjustedTime rest
    if 0 ≤ r then r + 1
    else if line.time ≤ adjustedTime then 0
    else -1

/-- `updateSyncedLyrics(currentTime)`: guard on unsynced/empty, compute
the new index from `currentTime + lyricsOffset`, and only when it
differs from `currentLine` re-render (modelled by the `Bool`) and store
it. -/
def updateSyncedLyrics (st : LyricsState) (currentTime : ℚ) : LyricsState × Bool :=
  if !st.isSynced || st.syncedLyrics.length == 0 then (st, false)
  else
    let adjustedTime := currentTime + st.lyricsOffset
    let newLineIndex := findLineIndex adjustedTime st.syncedLyrics
    if newLineIndex ≠ st.currentLine then
      ({ st with currentLine := newLineIndex }, true)
    else (st, false)

/-- `adjustOffset(seconds)`: `this.lyricsOffset += seconds` and return
the new cumulative offset (the notification toast is pure DOM). -/
def adjustOffset (st : LyricsState) (seconds : ℚ) : LyricsState × ℚ :=
  let st1 := { st with lyricsOffset := st.lyricsOffset + seconds }
  (st1, st1.lyricsOffset)

/-! ## Search component -/

/-- `toLowerCase` (inputs are ASCII). -/
def lowerStr (s : String) : String := String.mk (s.data.map Char.toLower)

/-- Exact (case-sensitive) "starts with" on character lists. -/
def startsWithChars : List Char → List Char → Bool
  | [], _ => true
  | _ :: _, [] => false
  | p :: ps, c :: cs => p == c && startsWithChars ps cs

/-- `String.prototype.includes`: `sub` occurs contiguously in the list. -/
def containsChars (sub : List Char) : List Char → Bool
  | [] => sub.isEmpty
  | c :: rest => startsWithChars sub (c :: rest) || containsChars sub rest

def strIncludes (hay sub : String) : Bool := containsChars sub.data hay.data

/-- Case-insensitive "starts with", for the `i`-flagged regexes. -/
def startsWithCIChars : List Char → List Char → Bool
  | [], _ => true
  | _ :: _, [] => false
  | p :: ps, c :: cs => p.toLower == c.toLower && startsWithCIChars ps cs

/-- The lazy `.*?\)` part of `\(feat\..*?\)` / `\(with.*?\)`: consume up
to the first `)` (shortest match).  `.` does not cross a line
terminator, so a newline before any `)` means no match here. -/
def dropThroughParen : List Char → Option (List Char)
  | [] => none
  | c :: rest =>
    if c == ')' then some rest
    else if c == '\n' || c == '\r' then none
    else dropThroughParen rest

/-- Global case-insensitive replace of `tag` + lazy-anything + `)` with
the empty string: delete each leftmost match, resume after it, advance
one character where no match starts.  Fuel as in `stripTimeTagsAux`. -/
def removeParenTag (tag : List Char) : Nat → List Char → List Char
  | 0, l => l
  | _ + 1, [] => []
  | fuel + 1, c :: rest =>
    if startsWithCIChars tag (c :: rest) then
      match dropThroughParen ((c :: rest).drop tag.length) with
      | some tagRest => removeParenTag tag fuel tagRest
      | none => c :: removeParenTag tag fuel rest
    else c :: removeParenTag tag fuel rest

/-- `query.replace(/\(feat\..*?\)/gi, '').replace(/\(with.*?\)/gi, '').trim()`. -/
def withoutFeatured (q : String) : String :=
  let step1 := removeParenTag "(feat.".data q.data.length q.data
  let step2 := removeParenTag "(with".data step1.length step1
  String.mk (trimChars step2)

def suffixesList : List String :=
  ["song", "audio", "lyrics", "music video", "official audio", "official video"]

def prefixesList : List String := ["song", "audio", "lyrics", "music", "video"]

/-- The sequence of `alternatives.push(...)` calls of
`generateAlternativeQueries`, before deduplication: the original query;
the query with each suffix not already contained (case-insensitively)
appended; the query with the first matching leading keyword-plus-space
stripped (and trimmed), when that changes it; the query with
`(feat. ...)` / `(with ...)` segments removed and trimmed, when that
changes it. -/
def rawAlternatives (query : String) : List String :=
  let withSuffixes := suffixesList.filterMap fun suffix =>
    if strIncludes (lowerStr query) (lowerStr suffix) then none
    else some (query ++ " " ++ suffix)
  let cleanedQuery :=
    match prefixesList.find? (fun p =>
        startsWithChars (lowerStr p ++ " ").data (lowerStr query).data) with
    | some p => String.mk (trimChars (query.data.drop (p.length + 1)))
    | none => query
  let cleanedPart := if cleanedQuery ≠ query then [cleanedQuery] else []
  let featPart :=
    let w := withoutFeatured query
    if w ≠ query then [w] else []
  query :: (withSuffixes ++ cleanedPart ++ featPart)

/-- `[...new Set(alternatives)]`: a JS `Set` iterates in insertion order
and ignores re-insertions, i.e. a left fold keeping first occurrences. -/
def generateAlternativeQueries (query : String) : List String :=
  (rawAlternatives query).foldl (fun acc x => if x ∈ acc then acc else acc ++ [x]) []

/-- The search-related fields of `PremiumMusicPlayer` (constructor:
`lastSearchQuery = ''`, `searchRetryCount = 0`, `maxSearchRetries = 3`). -/
structure SearchState where
  lastSearchQuery : String
  searchRetryCount : Nat
  maxSearchRetries : Nat
deriving DecidableEq

def initSearchState : SearchState :=
  { lastSearchQuery := "", searchRetryCount := 0, maxSearchRetries := 3 }

/-- What the network returns for a request: a rejected fetch, a non-2xx
response (`!response.ok`), or a decoded JSON payload with its success
flag, result list (records are opaque; only the list matters here) and
message. -/
inductive ApiResponse where
  | transportError
  | badStatus (status : Nat)
  | payload (success : Bool) (results : List Nat) (message : String)
deriving DecidableEq

/-- Observable effects of a search run, in order. -/
inductive SEvent where
  | warn
  | clearResults
  | request (q : String)
  | showResults (n : Nat)
  | showNoResults
  | retryNotice (attempt maxAttempts : Nat)
  | delayMs (ms : Nat)
  | showError
deriving DecidableEq

/-- `performSearch(queryText)`: issue the request; throw on transport
error, non-ok status, or `!data.success`; on `data.success` reset the
retry counter and display results or the no-results panel.  The `Bool`
is "threw". -/
def performSearch (net : String → ApiResponse) (st : SearchState) (q : String) :
    SearchState × List SEvent × Bool :=
  match net q with
  | .transportError => (st, [.request q], true)
  | .badStatus _ => (st, [.request q], true)
  | .payload success results _ =>
    if success then
      let st1 := { st with searchRetryCount := 0 }
      if 0 < results.length then (st1, [.request q, .showResults results.length], false)
      else (st1, [.request q, .showNoResults], false)
    else (st, [.request q], true)

/-- The `for (const altQuery of alternativeQueries)` loop of
`handleSearchError`: stop at the first alternative whose `performSearch`
does not throw; swallow each failure and continue.  The `Bool` is "some
alternative succeeded". -/
def tryAlternatives (net : String → ApiResponse) (st : SearchState) :
    List String → SearchState × List SEvent × Bool
  | [] => (st, [], false)
  | a :: rest =>
    let res := performSearch net st a
    if res.2.2 then
      let next := tryAlternatives net res.1 rest
      (next.1, res.2.1 ++ next.2.1, next.2.2)
    else (res.1, res.2.1, true)

/-- `handleSearchError(queryText, error)`: increment the retry counter;
if it is within the bound, notify, wait
`min(1000 * 2^(count-1), 5000)` ms, and walk the alternative queries;
when no alternative succeeds (or the bound is exceeded) display the
terminal search error. -/
def handleSearchError (net : String → ApiResponse) (st : SearchState) (q : String) :
    SearchState × List SEvent :=
  let st1 := { st with searchRetryCount := st.searchRetryCount + 1 }
  if st1.searchRetryCount ≤ st1.maxSearchRetries then
    let backoff := min (1000 * 2 ^ (st1.searchRetryCount - 1)) 5000
    let res := tryAlternatives net st1 (generateAlternativeQueries q)
    let prelude := [SEvent.retryNotice st1.searchRetryCount st1.maxSearchRetries,
      SEvent.delayMs backoff]
    if res.2.2 then (res.1, prelude ++ res.2.1)
    else (res.1, prelude ++ res.2.1 ++ [SEvent.showError])
  else (st1, [SEvent.showError])

/-- `search(query)`: reject an empty query with a warning; suppress an
identical resubmission while `searchRetryCount > 0`; otherwise record
the query, reset the counter, clear the results panel, perform the
request and hand any thrown error to `handleSearchError`. -/
def search (net : String → ApiResponse) (st : SearchState) (q : String) :
    SearchState × List SEvent :=
  if q = "" then (st, [.warn])
  else if q = st.lastSearchQuery ∧ 0 < st.searchRetryCount then (st, [])
  else
    let st1 := { st with lastSearchQuery := q, searchRetryCount := 0 }
    let res := performSearch net st1 q
    if res.2.2 then
      let hres := handleSearchError net res.1 q
      (hres.1, .clearResults :: (res.2.1 ++ hres.2))
    else (res.1, .clearResults :: res.2.1)

/-- First-occurrence deduplication with an explicit "seen" accumulator;
proof-side companion of the fold in `generateAlternativeQueries`. -/
def dedupAux (seen : List String) : List String → List String
  | [] => []
  | x :: xs => if x ∈ seen then dedupAux seen xs else x :: dedupAux (x :: seen) xs

/-- Delay extracted from an event, for counting backoff waits. -/
def delayOf : SEvent → Option Nat
  | .delayMs n => some n
  | _ => none

/-! ## Helper lemmas: the descending scan `findLineIndex` -/

theorem findLineIndex_ge_neg_one (adj : ℚ) (l : List LyricLine) :
    -1 ≤ findLineIndex adj l := by
  induction l with
  | nil => simp [findLineIndex]
  | cons a rest ih =>
    simp only [findLineIndex]
    split_ifs <;> omega

theorem findLineIndex_lt_length (adj : ℚ) (l : List LyricLine) :
    findLineIndex adj l < (l.length : Int) := by
  induction l with
  | nil => simp [findLineIndex]
  | cons a rest ih =>
    simp only [findLineIndex, List.length_cons]
    push_cast
    split_ifs <;> omega

theorem findLineIndex_le (adj : ℚ) (l : List LyricLine) :
    ∀ (j : Nat) (hj : j < l.length),
      (l.get ⟨j, hj⟩).time ≤ adj → (j : Int) ≤ findLineIndex adj l := by
  induction l with
  | nil => intro j hj; exact absurd hj (by simp)
  | cons a rest ih =>
    intro j hj h
    cases j with
    | zero =>
      have ha : a.time ≤ adj := h
      simp only [findLineIndex]
      split_ifs with h1 <;> omega
    | succ j =>
      have hjlt : j < rest.length := by simpa using hj
      have hle : ((j : Nat) : Int) ≤ findLineIndex adj rest := ih j hjlt h
      simp only [findLineIndex]
      split_ifs with h1 h2 <;> omega

theorem findLineIndex_eq_get (adj : ℚ) (l : List LyricLine)
    (h : 0 ≤ findLineIndex adj l) :
    ∃ (j : Nat) (hj : j < l.length),
      (j : Int) = findLineIndex adj l ∧ (l.get ⟨j, hj⟩).time ≤ adj := by
  induction l with
  | nil => simp [findLineIndex] at h
  | cons a rest ih =>
    by_cases h1 : 0 ≤ findLineIndex adj rest
    · obtain ⟨j, hj, hje, hjt⟩ := ih h1
      refine ⟨j + 1, by simpa using Nat.succ_lt_succ hj, ?_, hjt⟩
      simp only [findLineIndex, if_pos h1]
      push_cast
      omega
    · by_cases h2 : a.time ≤ adj
      · refine ⟨0, by simp, ?_, h2⟩
        simp [findLineIndex, h1, h2]
      · exfalso
        have hneg : findLineIndex adj (a :: rest) = -1 := by
          simp [findLineIndex, h1, h2]
        omega

/-! ## Helper lemmas: stable sort membership -/

theorem mem_insertByTime (a x : LyricLine) (l : List LyricLine) :
    a ∈ insertByTime x l ↔ a = x ∨ a ∈ l := by
  induction l with
  | nil => simp [insertByTime]
  | cons y ys ih =>
    simp only [insertByTime]
    split_ifs with h
    · simp only [List.mem_cons, ih]
      tauto
    · simp [List.mem_cons]

theorem mem_sortByTime_aux (a : LyricLine) (l : List LyricLine) :
    ∀ acc, a ∈ l.foldl (fun acc x => insertByTime x acc) acc ↔ a ∈ acc ∨ a ∈ l := by
  induction l with
  | nil => intro acc; simp
  | cons x xs ih =>
    intro acc
    simp only [List.foldl_cons, ih, mem_insertByTime, List.mem_cons]
    tauto

theorem mem_sortByTime (a : LyricLine) (l : List LyricLine) :
    a ∈ sortByTime l ↔ a ∈ l := by
  simpa [sortByTime] using mem_sortByTime_aux a l []

/-! ## Helper lemmas: first-occurrence deduplication -/

theorem mem_dedupAux (a : String) (l seen : List String) :
    a ∈ dedupAux seen l ↔ a ∈ l ∧ a ∉ seen := by
  induction l generalizing seen with
  | nil => simp [dedupAux]
  | cons x xs ih =>
    by_cases hx : x ∈ seen
    · rw [show dedupAux seen (x :: xs) = dedupAux seen xs from by
          simp [dedupAux, hx], ih seen]
      constructor
      · rintro ⟨hm, hns⟩
        exact ⟨List.mem_cons_of_mem x hm, hns⟩
      · rintro ⟨hm, hns⟩
        rcases List.mem_cons.1 hm with rfl | hm2
        · exact absurd hx hns
        · exact ⟨hm2, hns⟩
    · rw [show dedupAux seen (x :: xs) = x :: dedupAux (x :: seen) xs from by
          simp [dedupAux, hx]]
      constructor
      · intro hm
        rcases List.mem_cons.1 hm with rfl | hm2
        · exact ⟨List.mem_cons_self a xs, hx⟩
        · obtain ⟨hmx, hnx⟩ := (ih (x :: seen)).1 hm2
          exact ⟨List.mem_cons_of_mem x hmx,
            fun hs => hnx (List.mem_cons_of_mem x hs)⟩
      · rintro ⟨hm, hns⟩
        rcases List.mem_cons.1 hm with rfl | hm2
        · exact List.mem_cons_self a _
        · by_cases hax : a = x
          · subst hax
            exact List.mem_cons_self a _
          · refine List.mem_cons_of_mem x ((ih (x :: seen)).2 ⟨hm2, ?_⟩)
            simp only [List.mem_cons]
            tauto

theorem nodup_dedupAux (l : List String) : ∀ seen, (dedupAux seen l).Nodup := by
  induction l with
  | nil => intro seen; simp [dedupAux]
  | cons x xs ih =>
    intro seen
    by_cases hx : x ∈ seen
    · simpa [dedupAux, hx] using ih seen
    · simp only [dedupAux, if_neg hx]
      refine List.nodup_cons.2 ⟨?_, ih (x :: seen)⟩
      intro hmem
      exact ((mem_dedupAux x xs (x :: seen)).1 hmem).2 (by simp)

theorem sublist_dedupAux (l : List String) : ∀ seen, (dedupAux seen l).Sublist l := by
  induction l with
  | nil => intro seen; simp [dedupAux]
  | cons x xs ih =>
    intro seen
    by_cases hx : x ∈ seen
    · simp only [dedupAux, if_pos hx]
      exact List.Sublist.cons x (ih seen)
    · simp only [dedupAux, if_neg hx]
      exact List.Sublist.cons₂ x (ih (x :: seen))

theorem foldl_set_dedup (l : List String) :
    ∀ acc seen : List String, (∀ a, a ∈ acc ↔ a ∈ seen) →
      l.foldl (fun acc x => if x ∈ acc then acc else acc ++ [x]) acc
        = acc ++ dedupAux seen l := by
  induction l with
  | nil => intro acc seen _; simp [dedupAux]
  | cons x xs ih =>
    intro acc seen hm
    by_cases hx : x ∈ acc
    · have hx2 : x ∈ seen := (hm x).1 hx
      simp only [List.foldl_cons, if_pos hx, dedupAux, if_pos hx2]
      exact ih acc seen hm
    · have hx2 : x ∉ seen := fun hh => hx ((hm x).2 hh)
      simp only [List.foldl_cons, if_neg hx, dedupAux, if_neg hx2]
      rw [ih (acc ++ [x]) (x :: seen) (fun a => by
        simp only [List.mem_append, List.mem_singleton, List.mem_cons, hm a]
        tauto)]
      simp

theorem generateAlternativeQueries_eq (q : String) :
    generateAlternativeQueries q = dedupAux [] (rawAlternatives q) := by
  simpa [generateAlternativeQueries] using
    foldl_set_dedup (rawAlternatives q) [] [] (fun a => by simp)

theorem head_dedupAux (x : String) (xs : List String) :
    (dedupAux [] (x :: xs)).head? = some x := by
  simp [dedupAux]

/-! ## Helper lemmas: parsing -/

theorem parseLine_text_ne (line : List Char) (e : LyricLine)
    (h : parseLine line = some e) : e.text ≠ "" := by
  unfold parseLine at h
  cases hm : matchTimeTag line with
  | none => rw [hm] at h; exact absurd h (by simp)
  | some v =>
    obtain ⟨m, s, rest⟩ := v
    rw [hm] at h
    dsimp only at h
    by_cases ht : (trimChars rest).isEmpty = true
    · rw [if_pos ht] at h
      exact absurd h (by simp)
    · rw [if_neg ht] at h
      have he : LyricLine.mk ((m : ℚ) * 60 + s) (String.mk (trimChars rest)) = e :=
        Option.some.inj h
      subst he
      intro hcon
      apply ht
      have hd : trimChars rest = ("" : String).data := congrArg String.data hcon
      rw [hd]
      rfl

theorem parseLRCLyrics_syncedLyrics (st : LyricsState) (src : String) (h : src ≠ "") :
    (parseLRCLyrics st src).1.syncedLyrics
      = sortByTime ((splitLines src.data).filterMap parseLine) := by
  simp only [parseLRCLyrics, if_neg h]
  split_ifs <;> rfl

/-! ## Claim theorems -/

/-- C1: for every synced `LyricSet` and every call `update(t)`, the active
line index stored by `updateSyncedLyrics` is the greatest index whose
timestamp is at most the offset-adjusted time `t + lyricsOffset`, and `-1`
when no such index exists; in particular, for strictly increasing
timestamps, an adjusted time before the first line yields no active line
and an adjusted time at or after the last line yields the last index. -/
theorem c1_update_sets_greatest_passed_index (st : LyricsState) (t : ℚ)
    (hs : st.isSynced = true) (hn : st.syncedLyrics ≠ []) :
    ((updateSyncedLyrics st t).1.currentLine
        = findLineIndex (t + st.lyricsOffset) st.syncedLyrics)
    ∧ (-1 ≤ findLineIndex (t + st.lyricsOffset) st.syncedLyrics)
    ∧ (findLineIndex (t + st.lyricsOffset) st.syncedLyrics
        < (st.syncedLyrics.length : Int))
    ∧ (∀ (j : Nat) (hj : j < st.syncedLyrics.length),
        (st.syncedLyrics.get ⟨j, hj⟩).time ≤ t + st.lyricsOffset →
          (j : Int) ≤ findLineIndex (t + st.lyricsOffset) st.syncedLyrics)
    ∧ (0 ≤ findLineIndex (t + st.lyricsOffset) st.syncedLyrics →
        ∃ (j : Nat) (hj : j < st.syncedLyrics.length),
          (j : Int) = findLineIndex (t + st.lyricsOffset) st.syncedLyrics
            ∧ (st.syncedLyrics.get ⟨j, hj⟩).time ≤ t + st.lyricsOffset)
    ∧ (findLineIndex (t + st.lyricsOffset) st.syncedLyrics = -1 ↔
        ∀ (j : Nat) (hj : j < st.syncedLyrics.length),
          ¬ (st.syncedLyrics.get ⟨j, hj⟩).time ≤ t + st.lyricsOffset)
    ∧ (st.syncedLyrics.Pairwise (fun a b => a.time < b.time) →
        ∀ h0 : 0 < st.syncedLyrics.length,
          (t + st.lyricsOffset < (st.syncedLyrics.get ⟨0, h0⟩).time →
            findLineIndex (t + st.lyricsOffset) st.syncedLyrics = -1)
          ∧ ((st.syncedLyrics.get
                ⟨st.syncedLyrics.length - 1, by omega⟩).time ≤ t + st.lyricsOffset →
              findLineIndex (t + st.lyricsOffset) st.syncedLyrics
                = (st.syncedLyrics.length : Int) - 1)) := by
  have hguard : (!st.isSynced || st.syncedLyrics.length == 0) = false := by
    simp [hs, List.length_eq_zero, hn]
  have hcl : (updateSyncedLyrics st t).1.currentLine
      = findLineIndex (t + st.lyricsOffset) st.syncedLyrics := by
    simp only [updateSyncedLyrics, hguard, Bool.false_eq_true, if_false]
    by_cases hne : findLineIndex (t + st.lyricsOffset) st.syncedLyrics ≠ st.currentLine
    · rw [if_pos hne]
    · rw [if_neg hne]
      push_neg at hne
      exact hne.symm
  have hiff : findLineIndex (t + st.lyricsOffset) st.syncedLyrics = -1 ↔
      ∀ (j : Nat) (hj : j < st.syncedLyrics.length),
        ¬ (st.syncedLyrics.get ⟨j, hj⟩).time ≤ t + st.lyricsOffset := by
    constructor
    · intro hneg j hj hle
      have := findLineIndex_le (t + st.lyricsOffset) st.syncedLyrics j hj hle
      omega
    · intro hall
      by_cases hge : 0 ≤ findLineIndex (t + st.lyricsOffset) st.syncedLyrics
      · obtain ⟨j, hj, _, hjt⟩ :=
          findLineIndex_eq_get (t + st.lyricsOffset) st.syncedLyrics hge
        exact absurd hjt (hall j hj)
      · have := findLineIndex_ge_neg_one (t + st.lyricsOffset) st.syncedLyrics
        omega
  refine ⟨hcl, findLineIndex_ge_neg_one _ _, findLineIndex_lt_length _ _,
    fun j hj h => findLineIndex_le _ _ j hj h,
    fun h => findLineIndex_eq_get _ _ h, hiff, ?_⟩
  intro hp h0
  constructor
  · intro hlt0
    apply hiff.2
    intro j hj hle
    rcases Nat.eq_zero_or_pos j with hz | hpos
    · subst hz
      exact absurd hle (not_le.2 hlt0)
    · have hij : (⟨0, h0⟩ : Fin st.syncedLyrics.length) < ⟨j, hj⟩ := by
        simpa [Fin.lt_def] using hpos
      have hstep := List.pairwise_iff_get.1 hp ⟨0, h0⟩ ⟨j, hj⟩ hij
      exact absurd hle (not_le.2 (lt_trans hlt0 hstep))
  · intro hlast
    have hle := findLineIndex_le (t + st.lyricsOffset) st.syncedLyrics
      (st.syncedLyrics.length - 1) (by omega) hlast
    have hlt := findLineIndex_lt_length (t + st.lyricsOffset) st.syncedLyrics
    omega

theorem c1_update_sets_greatest_passed_index_witness :
    (updateSyncedLyrics
        { lyrics := [], syncedLyrics := [⟨1, "a"⟩, ⟨2, "b"⟩], currentLine := -1,
          isSynced := true, lyricsOffset := 0 } 5).1.currentLine
      = findLineIndex ((5 : ℚ) + 0) [⟨1, "a"⟩, ⟨2, "b"⟩] :=
  (c1_update_sets_greatest_passed_index
    { lyrics := [], syncedLyrics := [⟨1, "a"⟩, ⟨2, "b"⟩], currentLine := -1,
      isSynced := true, lyricsOffset := 0 } 5 rfl (by decide)).1

/-- C2: among lines whose timestamp has passed, a later-declared line with
an equal timestamp always wins (the descending scan stops at the greatest
qualifying index), and concretely parsing `"[0:01.0]a\n[0:01.0]b"` and
updating at `1.0` with offset `0` makes line 1 (text `"b"`) active. -/
theorem c2_equal_timestamp_last_wins :
    (∀ (l : List LyricLine) (adj : ℚ) (i j : Nat)
        (hi : i < l.length) (hj : j < l.length),
        i < j → (l.get ⟨i, hi⟩).time = (l.get ⟨j, hj⟩).time →
        (l.get ⟨j, hj⟩).time ≤ adj → (i : Int) < findLineIndex adj l)
    ∧ (parseLRCLyrics initState "[0:01.0]a\n[0:01.0]b").1.syncedLyrics
        = [⟨1, "a"⟩, ⟨1, "b"⟩]
    ∧ (updateSyncedLyrics
        (parseLRCLyrics initState "[0:01.0]a\n[0:01.0]b").1 1).1.currentLine = 1
    ∧ (parseLRCLyrics initState "[0:01.0]a\n[0:01.0]b").1.syncedLyrics.get? 1
        = some ⟨1, "b"⟩ := by
  refine ⟨?_, by decide, by decide, by decide⟩
  intro l adj i j hi hj hij _heq hle
  have := findLineIndex_le adj l j hj hle
  omega

theorem c2_equal_timestamp_last_wins_witness :
    ((0 : Nat) : Int) < findLineIndex 1 [⟨1, "a"⟩, ⟨1, "b"⟩] :=
  c2_equal_timestamp_last_wins.1 [⟨1, "a"⟩, ⟨1, "b"⟩] 1 0 1
    (by decide) (by decide) (by decide) (by decide) (by decide)

/-- C3: contrary to the claim of three retry rounds with backoff delays of
1000 ms, 2000 ms and 4000 ms, a search in which every request fails with a
transport error performs exactly one retry round: the retry counter ends
at 1 (not 3), the only backoff wait is 1000 ms, and the run ends with the
terminal error display.  `handleSearchError` is called once from `search`
and never re-entered, so with `maxSearchRetries = 3` the counter can never
reach 2 or 3. -/
theorem c3_single_retry_round :
    ((search (fun _ => ApiResponse.transportError) initSearchState "x").2.filterMap delayOf
        = [1000])
    ∧ ((search (fun _ => ApiResponse.transportError) initSearchState "x").1.searchRetryCount
        = 1)
    ∧ ((search (fun _ => ApiResponse.transportError) initSearchState "x").2.getLast?
        = some SEvent.showError)
    ∧ (initSearchState.maxSearchRetries = 3) :=
  ⟨by decide, by decide, by decide, by decide⟩

/-- C4: alternative-query generation is a pure function of the query that
first builds, in order, the original query, the suffixed variants for each
fixed suffix not already contained case-insensitively, the
first-matching-leading-keyword-stripped variant, and the
`(feat./with ...)`-stripped variant, and then removes duplicates keeping
first occurrences (`[...new Set(...)]`); the result has no duplicates, is
an order-preserving sublist of the raw push list with the same members,
starts with the original query, and on `"Imagine (feat. X)"` contains the
original, the `song`-suffixed variant and `"Imagine"`. -/
theorem c4_alternative_queries_dedup_order :
    (∀ q : String,
        generateAlternativeQueries q = dedupAux [] (rawAlternatives q)
        ∧ (generateAlternativeQueries q).Nodup
        ∧ (generateAlternativeQueries q).Sublist (rawAlternatives q)
        ∧ (∀ a, a ∈ generateAlternativeQueries q ↔ a ∈ rawAlternatives q)
        ∧ (generateAlternativeQueries q).head? = some q)
    ∧ generateAlternativeQueries "Imagine (feat. X)" =
        ["Imagine (feat. X)", "Imagine (feat. X) song", "Imagine (feat. X) audio",
         "Imagine (feat. X) lyrics", "Imagine (feat. X) music video",
         "Imagine (feat. X) official audio", "Imagine (feat. X) official video",
         "Imagine"] := by
  refine ⟨fun q => ⟨generateAlternativeQueries_eq q, ?_, ?_, ?_, ?_⟩, by decide⟩
  · rw [generateAlternativeQueries_eq]
    exact nodup_dedupAux _ []
  · rw [generateAlternativeQueries_eq]
    exact sublist_dedupAux _ []
  · intro a
    rw [generateAlternativeQueries_eq, mem_dedupAux]
    simp
  · rw [generateAlternativeQueries_eq]
    simp only [rawAlternatives]
    exact head_dedupAux q _


theorem c4_alternative_queries_dedup_order_witness :
    (generateAlternativeQueries "x").Nodup
    ∧ (generateAlternativeQueries "x").head? = some "x" :=
  ⟨(c4_alternative_queries_dedup_order.1 "x").2.1,
   (c4_alternative_queries_dedup_order.1 "x").2.2.2.2⟩

/-- C5: `adjustOffset` adds its argument to the persistent offset (which
starts at 0), returns the new cumulative value, changes nothing else, and
update is shift-equivalent with respect to the offset:
`update(t)` after `offset(d)` computes the same active line as
`update(t + d)` before, in particular `offset(+2)` then `update(1)`
matches `update(3)`. -/
theorem c5_offset_accumulates_and_shifts :
    initState.lyricsOffset = 0
    ∧ (∀ (st : LyricsState) (s : ℚ),
        (adjustOffset st s).1.lyricsOffset = st.lyricsOffset + s
        ∧ (adjustOffset st s).2 = st.lyricsOffset + s
        ∧ (adjustOffset st s).1.syncedLyrics = st.syncedLyrics
        ∧ (adjustOffset st s).1.currentLine = st.currentLine
        ∧ (adjustOffset st s).1.isSynced = st.isSynced)
    ∧ (∀ (st : LyricsState) (d t : ℚ),
        (updateSyncedLyrics (adjustOffset st d).1 t).1.currentLine
          = (updateSyncedLyrics st (t + d)).1.currentLine)
    ∧ (∀ st : LyricsState,
        (updateSyncedLyrics (adjustOffset st 2).1 1).1.currentLine
          = (updateSyncedLyrics st 3).1.currentLine) := by
  have hshift : ∀ (st : LyricsState) (d t : ℚ),
      (updateSyncedLyrics (adjustOffset st d).1 t).1.currentLine
        = (updateSyncedLyrics st (t + d)).1.currentLine := by
    intro st d t
    have harg : t + (st.lyricsOffset + d) = t + d + st.lyricsOffset := by ring
    dsimp only [updateSyncedLyrics, adjustOffset]
    rw [harg]
    by_cases hg : (!st.isSynced || st.syncedLyrics.length == 0) = true
    · simp [hg]
    · simp only [if_neg hg]
      by_cases hne : findLineIndex (t + d + st.lyricsOffset) st.syncedLyrics ≠ st.currentLine
      · simp [hne]
      · simp [hne]
  refine ⟨rfl, fun st s => ⟨rfl, rfl, rfl, rfl, rfl⟩, hshift, fun st => ?_⟩
  have h3 : (1 : ℚ) + 2 = 3 := by norm_num
  simpa [h3] using hshift st 2 1


theorem c5_offset_accumulates_and_shifts_witness :
    (updateSyncedLyrics (adjustOffset initState 2).1 1).1.currentLine
      = (updateSyncedLyrics initState 3).1.currentLine :=
  c5_offset_accumulates_and_shifts.2.2.2 initState

/-- C6: a response carrying the success indicator and an empty result list
is terminal NoResults: the search issues exactly one request, shows the
no-results panel, performs no backoff wait and no alternative queries, and
leaves the retry counter at zero. -/
theorem c6_empty_success_no_retry (net : String → ApiResponse) (st : SearchState)
    (q m : String) (hq : q ≠ "")
    (hsup : ¬ (q = st.lastSearchQuery ∧ 0 < st.searchRetryCount))
    (hnet : net q = ApiResponse.payload true [] m) :
    search net st q
      = ({ st with lastSearchQuery := q, searchRetryCount := 0 },
         [SEvent.clearResults, SEvent.request q, SEvent.showNoResults]) := by
  simp [search, performSearch, hq, hsup, hnet]

theorem c6_empty_success_no_retry_witness :
    search (fun _ => ApiResponse.payload true [] "m") initSearchState "q"
      = ({ lastSearchQuery := "q", searchRetryCount := 0, maxSearchRetries := 3 },
         [SEvent.clearResults, SEvent.request "q", SEvent.showNoResults]) :=
  c6_empty_success_no_retry (fun _ => ApiResponse.payload true [] "m")
    initSearchState "q" "m" (by decide) (by decide) rfl

/-- C7 counterexample: after `search "x"` with every request failing has
reached its terminal failure (the error panel was shown, first conjunct),
re-invoking `search "x"` is still suppressed — it performs no request and
changes no state (second conjunct).  This refutes the claim that the
suppression lasts only "until the prior attempt for q reaches a terminal
state": the retry counter is not reset on terminal failure. -/
theorem c7_counterexample_suppressed_after_terminal :
    SEvent.showError ∈ (search (fun _ => ApiResponse.transportError) initSearchState "x").2
    ∧ search (fun _ => ApiResponse.transportError)
        ((search (fun _ => ApiResponse.transportError) initSearchState "x").1) "x"
        = ((search (fun _ => ApiResponse.transportError) initSearchState "x").1, []) :=
  ⟨by decide, by decide⟩

/-- C7 (amended): while the stored last-searched query equals `q` and the
retry counter is positive, re-invoking `search(q)` with the identical
non-empty text is suppressed: no event is emitted (in particular no
request) and the state is unchanged.  The suppressing condition persists
after a terminal failure, since only a successful response resets the
counter. -/
theorem c7_identical_query_suppressed (net : String → ApiResponse) (st : SearchState)
    (q : String) (hq : q ≠ "") (hlast : st.lastSearchQuery = q)
    (hcnt : 0 < st.searchRetryCount) :
    search net st q = (st, []) := by
  have hsup : q = st.lastSearchQuery ∧ 0 < st.searchRetryCount := ⟨hlast.symm, hcnt⟩
  simp only [search, if_neg hq, if_pos hsup]

theorem c7_identical_query_suppressed_witness :
    search (fun _ => ApiResponse.transportError)
        { lastSearchQuery := "x", searchRetryCount := 1, maxSearchRetries := 3 } "x"
      = ({ lastSearchQuery := "x", searchRetryCount := 1, maxSearchRetries := 3 }, []) :=
  c7_identical_query_suppressed (fun _ => ApiResponse.transportError)
    { lastSearchQuery := "x", searchRetryCount := 1, maxSearchRetries := 3 }
    "x" (by decide) rfl (by decide)

/-- C8 counterexample: on the empty source, `parseLRCLyrics` returns early
without touching state, so from a state that is synced with a non-empty
set it does NOT yield `isSynced = false` with an empty synced set, contrary
to the claim's "an unparseable or empty source yields isSynced = false
together with an empty synced set". -/
theorem c8_counterexample_empty_source_keeps_state :
    ¬ (((parseLRCLyrics
          { lyrics := [], syncedLyrics := [⟨0, "a"⟩], currentLine := 0,
            isSynced := true, lyricsOffset := 0 } "").1.isSynced = false)
        ∧ ((parseLRCLyrics
          { lyrics := [], syncedLyrics := [⟨0, "a"⟩], currentLine := 0,
            isSynced := true, lyricsOffset := 0 } "").1.syncedLyrics = [])) := by
  decide

/-- C8 (amended): parsing is total and degrades instead of raising.  An
empty source returns the fixed string `'Lyrics not available'` leaving the
whole lyric state unchanged; a nonempty source in which no line yields a
synced entry (no parseable `[mm:ss.xx]` tag, or only blank-text tags)
yields `isSynced = false`, an empty synced set, and the tag-stripped,
trimmed plain text. -/
theorem c8_parse_total_and_degrades (st : LyricsState) (src : String) :
    (src = "" → parseLRCLyrics st src = (st, "Lyrics not available"))
    ∧ (src ≠ "" →
        (∀ line ∈ splitLines src.data, parseLine line = none) →
          (parseLRCLyrics st src).1.isSynced = false
          ∧ (parseLRCLyrics st src).1.syncedLyrics = []
          ∧ (parseLRCLyrics st src).2
              = String.mk (trimChars (stripTimeTags src).data)) := by
  constructor
  · intro h
    simp [parseLRCLyrics, h]
  · intro h hall
    have hfm : (splitLines src.data).filterMap parseLine = [] :=
      List.filterMap_eq_nil_iff.2 hall
    refine ⟨?_, ?_, ?_⟩ <;> simp [parseLRCLyrics, h, hfm, sortByTime]

theorem c8_parse_total_and_degrades_witness :
    (parseLRCLyrics initState "hello").1.isSynced = false
    ∧ (parseLRCLyrics initState "hello").1.syncedLyrics = []
    ∧ (parseLRCLyrics initState "hello").2
        = String.mk (trimChars (stripTimeTags "hello").data) :=
  (c8_parse_total_and_degrades initState "hello").2 (by decide) (by decide)

/-- C9: a source line whose timestamp tag parses but whose remaining text
is empty after trimming is discarded by `parseLRCLyrics`, so every entry
of the synced set produced from a non-empty source has non-empty text —
blank timestamped lines can never participate in tie-breaking or become
the active line. -/
theorem c9_blank_tagged_lines_dropped (st : LyricsState) (src : String)
    (h : src ≠ "") :
    ((parseLRCLyrics st src).1.syncedLyrics.all fun e => !(e.text == "")) = true := by
  rw [List.all_eq_true]
  intro e he
  rw [parseLRCLyrics_syncedLyrics st src h, mem_sortByTime] at he
  obtain ⟨line, _, hpl⟩ := List.mem_filterMap.1 he
  have hne := parseLine_text_ne line e hpl
  simpa using hne

theorem c9_blank_tagged_lines_dropped_witness :
    (((parseLRCLyrics initState "[0:01.0]a\n[0:01.0]   ").1.syncedLyrics.all
        fun e => !(e.text == "")) = true) :=
  c9_blank_tagged_lines_dropped initState "[0:01.0]a\n[0:01.0]   " (by decide)

/-- C10: when the state is not synced or the synced set is empty,
`updateSyncedLyrics` returns immediately: the whole state (including the
stored current-line index) is unchanged and no line-changed re-render is
emitted. -/
theorem c10_unsynced_update_no_effect (st : LyricsState) (t : ℚ)
    (h : st.isSynced = false ∨ st.syncedLyrics = []) :
    updateSyncedLyrics st t = (st, false) := by
  have hguard : (!st.isSynced || st.syncedLyrics.length == 0) = true := by
    rcases h with h | h <;> simp [h]
  simp [updateSyncedLyrics, hguard]

theorem c10_unsynced_update_no_effect_witness :
    updateSyncedLyrics initState 0 = (initState, false) :=
  c10_unsynced_update_no_effect initState 0 (Or.inl rfl)

end Player
